import Mathlib

/-!
# History Buffer — shallow embedding and verification

Shallow embedding of `src/index.ts` (`createHistory`): a bounded,
order-preserving value buffer with a navigable cursor. The TypeScript
implementation keeps its state in closure variables `_maxSize`,
`_defaultValue`, `_validate`, `_index`, `_entries`; here these become the
fields of `History.HistoryState`, and each closure function becomes a pure
function from state to state (together with its return value, when it has
one). JavaScript `undefined` is modelled by `Option.none`; the cursor
`_index` is a JavaScript number that can be `-1`, so it is an `Int`.
-/

namespace History

/-- Embedding of `IHistoryOptions<T>`: `maxSize` is a required field of the
TypeScript interface, but callers may still pass objects lacking it (the
tests pass `<any>{}`), and `setOptions` guards each field with a
`typeof ... !== "undefined"` check, so every field is an `Option` here,
`none` standing for JavaScript `undefined`/`null`. `maxSize` is a `Nat`:
the spec calls it a (non-negative) integer count and no behaviour under
scrutiny involves a negative or fractional `maxSize`. -/
structure HistoryOptions (T : Type) where
  maxSize : Option Nat
  defaultValue : Option T
  validate : Option (T → Bool)

/-- The closure state of `createHistory<T>`:
`_maxSize`, `_defaultValue`, `_validate`, `_index`, `_entries`.
`_defaultValue` is declared but never initialised in the source (it stays
`undefined` until options supply it), hence `Option T` with `none` for
`undefined`. `_validate` defaults to the constant-true predicate. -/
structure HistoryState (T : Type) where
  maxSize : Nat
  defaultValue : Option T
  validate : T → Bool
  index : Int
  entries : List T

/-- The state of a freshly allocated closure before `setOptions` runs:
`_index = -1`, `_entries = []`, `_validate = (_ => true)`,
`_defaultValue` undefined. `_maxSize` is declared uninitialised in the
source (`let _maxSize: number`); we give the field the placeholder `0`,
which is always overwritten before a buffer is ever returned, because
`createHistory` propagates the `setOptions` error otherwise. -/
def initialState (T : Type) : HistoryState T :=
  { maxSize := 0
    defaultValue := none
    validate := fun _ => true
    index := -1
    entries := [] }

/-- Embedding of `setOptions`: throws `"Options must specify maxSize."`
when `options == null || options.maxSize == null`; otherwise overwrites
`_maxSize` and, for each optional field present, the corresponding stored
setting. The throw precedes every assignment, exactly as in the source. -/
def setOptions {T : Type} (options : Option (HistoryOptions T))
    (s : HistoryState T) : Except String (HistoryState T) :=
  match options with
  | none => .error "Options must specify maxSize."
  | some o =>
    match o.maxSize with
    | none => .error "Options must specify maxSize."
    | some m =>
      .ok { s with
            maxSize := m
            defaultValue := match o.defaultValue with
              | some v => some v
              | none => s.defaultValue
            validate := match o.validate with
              | some f => f
              | none => s.validate }

/-- Embedding of `createHistory`: run `setOptions` on the fresh closure
state; a thrown configuration error propagates and no buffer is produced. -/
def createHistory {T : Type} (options : Option (HistoryOptions T)) :
    Except String (HistoryState T) :=
  setOptions options (initialState T)

/-- `move.first`: empty buffer resets the cursor to `-1` and reports
`false`; otherwise the cursor goes to `0` and it reports `true`. -/
def moveFirst {T : Type} (s : HistoryState T) : HistoryState T × Bool :=
  if s.entries.length = 0 then ({ s with index := -1 }, false)
  else ({ s with index := 0 }, true)

/-- `move.last`: empty buffer resets the cursor to `-1` and reports
`false`; otherwise the cursor goes to `entries.length - 1`. -/
def moveLast {T : Type} (s : HistoryState T) : HistoryState T × Bool :=
  if s.entries.length = 0 then ({ s with index := -1 }, false)
  else ({ s with index := (s.entries.length : Int) - 1 }, true)

/-- `move.pastLast`: empty buffer resets the cursor to `-1` and reports
`false`; otherwise the cursor goes to `entries.length`. -/
def movePastLast {T : Type} (s : HistoryState T) : HistoryState T × Bool :=
  if s.entries.length = 0 then ({ s with index := -1 }, false)
  else ({ s with index := (s.entries.length : Int) }, true)

/-- `move.prev`: no-op returning `false` when `_index <= 0`, else
decrement the cursor and return `true`. -/
def movePrev {T : Type} (s : HistoryState T) : HistoryState T × Bool :=
  if s.index ≤ 0 then (s, false)
  else ({ s with index := s.index - 1 }, true)

/-- `move.next`: no-op returning `false` when `_index === entries.length`,
else increment the cursor and return `true`. -/
def moveNext {T : Type} (s : HistoryState T) : HistoryState T × Bool :=
  if s.index = (s.entries.length : Int) then (s, false)
  else ({ s with index := s.index + 1 }, true)

/-- `_entries.splice(i, 1)`: remove the element at index `i`, a no-op when
`i` is at or past the end of the list. -/
def spliceAt {T : Type} (l : List T) (i : Nat) : List T :=
  l.take i ++ l.drop (i + 1)

/-- One iteration of the dedup loop body in `add`:
`if (_entries[i] === entry) { _entries.splice(i, 1) }`. Reading one past
the end (`_entries[_entries.length]`) yields `undefined` in JavaScript,
which is never `===` to a stored entry; here `l.get? i = none` likewise
fails the comparison. -/
def dedupStep {T : Type} [DecidableEq T] (entry : T) (l : List T)
    (i : Nat) : List T :=
  if l.get? i = some entry then spliceAt l i else l

/-- The dedup loop of `add`, `for (let i = _entries.length; i >= 0; --i)`:
process index `i`, then `i - 1`, down to `0`. The loop counter starts at
the length the list had on entry and counts down regardless of splices. -/
def dedupDown {T : Type} [DecidableEq T] (entry : T) (l : List T) :
    Nat → List T
  | 0 => dedupStep entry l 0
  | i + 1 => dedupDown entry (dedupStep entry l (i + 1)) i

/-- Embedding of `add`: reject invalid entries (setting the cursor past
the end of the untouched list); otherwise remove duplicates with the
downward splice scan, `shift()` the oldest element when
`_entries.length >= _maxSize` still holds, `push` the entry, and finish
with `move.pastLast()`. -/
def add {T : Type} [DecidableEq T] (s : HistoryState T) (entry : T) :
    HistoryState T :=
  if s.validate entry = false then
    { s with index := (s.entries.length : Int) }
  else
    let deduped := dedupDown entry s.entries s.entries.length
    let shifted := if s.maxSize ≤ deduped.length then deduped.drop 1 else deduped
    let pushed := shifted ++ [entry]
    (movePastLast { s with entries := pushed }).1

/-- Embedding of `current`: `entries[_index]` when the cursor is a valid
index, else `_defaultValue` (which may itself be `undefined`, i.e.
`none`). -/
def current {T : Type} (s : HistoryState T) : Option T :=
  if 0 < s.entries.length ∧ 0 ≤ s.index ∧ s.index < (s.entries.length : Int)
  then s.entries.get? s.index.toNat
  else s.defaultValue

/-- Embedding of `length`. -/
def length {T : Type} (s : HistoryState T) : Nat :=
  s.entries.length

/-- The public surface of `IHistory<T>`, as an operation alphabet for
reachability statements: `add`, `options` (reconfigure), `length`,
`current` and the five `move` functions. -/
inductive HistOp (T : Type) where
  | add (entry : T)
  | reconfigure (options : Option (HistoryOptions T))
  | prev
  | next
  | first
  | last
  | pastLast
  | readCurrent
  | readLength

/-- One public call applied to the buffer state. A `reconfigure` that
throws leaves the closure state untouched: the throw in `setOptions`
happens before any assignment, so the caller observes the prior state.
`current` and `length` are pure reads. -/
def step {T : Type} [DecidableEq T] (s : HistoryState T) :
    HistOp T → HistoryState T
  | .add e => add s e
  | .reconfigure o =>
    match setOptions o s with
    | .ok s' => s'
    | .error _ => s
  | .prev => (movePrev s).1
  | .next => (moveNext s).1
  | .first => (moveFirst s).1
  | .last => (moveLast s).1
  | .pastLast => (movePastLast s).1
  | .readCurrent => s
  | .readLength => s

/-- A whole call sequence applied in order. -/
def run {T : Type} [DecidableEq T] (s : HistoryState T)
    (ops : List (HistOp T)) : HistoryState T :=
  ops.foldl step s

/-- Reading at or past the end leaves the list untouched in one loop
iteration: `_entries[i]` is `undefined` there. -/
theorem dedupStep_of_length_le {T : Type} [DecidableEq T] (entry : T) (l : List T) (i : Nat)
    (h : l.length ≤ i) : dedupStep entry l i = l := by
  unfold dedupStep
  rw [List.get?_eq_getElem?, List.getElem?_eq_none h]
  simp

/-- Running the downward splice scan from index `i` filters the matches
out of the first `i + 1` positions and leaves the rest alone. -/
theorem dedupDown_eq {T : Type} [DecidableEq T] (entry : T) :
    ∀ (i : Nat) (l : List T),
      dedupDown entry l i =
        (l.take (i + 1)).filter (fun x => decide (x ≠ entry)) ++
          l.drop (i + 1)
  | 0, l => by
    cases l with
    | nil => simp [dedupDown, dedupStep, spliceAt]
    | cons a t =>
      by_cases ha : a = entry
      · subst ha
        simp [dedupDown, dedupStep, spliceAt]
      · simp [dedupDown, dedupStep, spliceAt, ha]
  | i + 1, l => by
    show dedupDown entry (dedupStep entry l (i + 1)) i = _
    rw [dedupDown_eq entry i (dedupStep entry l (i + 1))]
    by_cases h : l.get? (i + 1) = some entry
    · have hlt : i + 1 < l.length := by
        by_contra hge
        push_neg at hge
        rw [List.get?_eq_getElem?, List.getElem?_eq_none hge] at h
        exact Option.noConfusion h
      have hstep : dedupStep entry l (i + 1) =
          l.take (i + 1) ++ l.drop (i + 2) := by
        unfold dedupStep spliceAt
        rw [if_pos h]
      have hlen : (l.take (i + 1)).length = i + 1 := by
        rw [List.length_take]; omega
      have hget : l[i + 1]? = some entry := by
        rw [← List.get?_eq_getElem?]; exact h
      have htake : l.take (i + 1 + 1) = l.take (i + 1) ++ [entry] := by
        rw [List.take_succ, hget]; rfl
      rw [hstep, List.take_left' hlen, List.drop_left' hlen, htake]
      simp
    · have hstep : dedupStep entry l (i + 1) = l := by
        unfold dedupStep
        rw [if_neg h]
      rw [hstep]
      by_cases hlt : i + 1 < l.length
      · have hget : l[i + 1]? = some l[i + 1] := List.getElem?_eq_getElem hlt
        have hne : ¬ l[i + 1] = entry := by
          intro he
          apply h
          rw [List.get?_eq_getElem?, hget, he]
        have htake : l.take (i + 1 + 1) = l.take (i + 1) ++ [l[i + 1]] := by
          rw [List.take_succ, hget]; rfl
        rw [htake, List.drop_eq_getElem_cons hlt, List.filter_append]
        simp [hne]
      · push_neg at hlt
        rw [List.take_of_length_le (by omega), List.take_of_length_le (by omega),
            List.drop_eq_nil_of_le (by omega), List.drop_eq_nil_of_le (by omega)]

/-- The whole dedup loop, started at `_entries.length` as in the source,
removes exactly the elements equal to `entry`, preserving the relative
order of all the others. -/
theorem dedupDown_full {T : Type} [DecidableEq T] (entry : T) (l : List T) :
    dedupDown entry l l.length =
      l.filter (fun x => decide (x ≠ entry)) := by
  rw [dedupDown_eq entry l.length l,
      List.take_of_length_le (by omega),
      List.drop_eq_nil_of_le (by omega)]
  simp

/-- `move.pastLast` never changes the entry list. -/
theorem movePastLast_entries {T : Type} (s : HistoryState T) :
    (movePastLast s).1.entries = s.entries := by
  unfold movePastLast
  split <;> rfl

/-- `move.pastLast` leaves `maxSize` alone. -/
theorem movePastLast_maxSize {T : Type} (s : HistoryState T) :
    (movePastLast s).1.maxSize = s.maxSize := by
  unfold movePastLast
  split <;> rfl

/-- `move.pastLast` leaves the validation predicate alone. -/
theorem movePastLast_validate_eq {T : Type} (s : HistoryState T) :
    (movePastLast s).1.validate = s.validate := by
  unfold movePastLast
  split <;> rfl

/-- `move.pastLast` leaves the default value alone. -/
theorem movePastLast_defaultValue {T : Type} (s : HistoryState T) :
    (movePastLast s).1.defaultValue = s.defaultValue := by
  unfold movePastLast
  split <;> rfl

/-- `move.pastLast` on a non-empty buffer puts the cursor past the end. -/
theorem movePastLast_index_of_ne {T : Type} (s : HistoryState T)
    (h : ¬ s.entries.length = 0) :
    (movePastLast s).1.index = (s.entries.length : Int) := by
  unfold movePastLast
  rw [if_neg h]

/-- `add` of an entry failing validation only moves the cursor. -/
theorem add_of_validate_false {T : Type} [DecidableEq T] (s : HistoryState T) (e : T)
    (h : s.validate e = false) :
    add s e = { s with index := (s.entries.length : Int) } := by
  unfold add
  rw [if_pos h]

/-- The entry list after a successful `add`: filter out the duplicates,
drop the oldest element when the result is still at or above capacity,
append the new entry. -/
theorem add_entries_eq {T : Type} [DecidableEq T] (s : HistoryState T) (e : T)
    (h : s.validate e = true) :
    (add s e).entries =
      (if s.maxSize ≤ (s.entries.filter (fun x => decide (x ≠ e))).length
       then (s.entries.filter (fun x => decide (x ≠ e))).drop 1
       else s.entries.filter (fun x => decide (x ≠ e))) ++ [e] := by
  simp only [add]
  rw [if_neg (by simp [h])]
  rw [movePastLast_entries]
  simp only [dedupDown_full]

/-- After every `add`, valid or not, the cursor sits at the past-last
position of the resulting entry list. -/
theorem add_index_eq {T : Type} [DecidableEq T] (s : HistoryState T) (e : T) :
    (add s e).index = ((add s e).entries.length : Int) := by
  simp only [add]
  split
  · rfl
  · rw [movePastLast_entries, movePastLast_index_of_ne]
    simp

/-- `add` never touches `maxSize`. -/
theorem add_maxSize {T : Type} [DecidableEq T] (s : HistoryState T) (e : T) :
    (add s e).maxSize = s.maxSize := by
  simp only [add]
  split
  · rfl
  · rw [movePastLast_maxSize]

/-- `add` never touches the validation predicate. -/
theorem add_validate_eq {T : Type} [DecidableEq T] (s : HistoryState T) (e : T) :
    (add s e).validate = s.validate := by
  simp only [add]
  split
  · rfl
  · rw [movePastLast_validate_eq]

/-- `add` never touches the default value. -/
theorem add_defaultValue {T : Type} [DecidableEq T] (s : HistoryState T) (e : T) :
    (add s e).defaultValue = s.defaultValue := by
  simp only [add]
  split
  · rfl
  · rw [movePastLast_defaultValue]

/-- A successful `setOptions` call never touches `_entries` or `_index`. -/
theorem setOptions_ok_fields {T : Type} (o : Option (HistoryOptions T))
    (s s' : HistoryState T) (h : setOptions o s = .ok s') :
    s'.entries = s.entries ∧ s'.index = s.index := by
  unfold setOptions at h
  split at h
  · exact absurd h (by simp)
  · split at h
    · exact absurd h (by simp)
    · rw [Except.ok.injEq] at h
      rw [← h]
      exact ⟨rfl, rfl⟩

/-- `setOptions` succeeds exactly when the options object is present and
carries a `maxSize`. -/
theorem setOptions_isOk_iff {T : Type} (o : Option (HistoryOptions T))
    (s : HistoryState T) :
    (setOptions o s).isOk = true ↔
      (o.bind fun x => x.maxSize).isSome = true := by
  cases o with
  | none => simp [setOptions, Except.isOk, Except.toBool]
  | some oo =>
    cases h : oo.maxSize with
    | none => simp [setOptions, h, Except.isOk, Except.toBool]
    | some m => simp [setOptions, h, Except.isOk, Except.toBool]

/-- A sequence of `add` calls never touches `maxSize`. -/
theorem foldl_add_maxSize {T : Type} [DecidableEq T] :
    ∀ (l : List T) (s : HistoryState T),
      (l.foldl add s).maxSize = s.maxSize
  | [], _ => rfl
  | e :: rest, s => by
    show (rest.foldl add (add s e)).maxSize = s.maxSize
    rw [foldl_add_maxSize rest (add s e), add_maxSize]

/-- A sequence of `add` calls never touches the validation predicate. -/
theorem foldl_add_validate_eq {T : Type} [DecidableEq T] :
    ∀ (l : List T) (s : HistoryState T),
      (l.foldl add s).validate = s.validate
  | [], _ => rfl
  | e :: rest, s => by
    show (rest.foldl add (add s e)).validate = s.validate
    rw [foldl_add_validate_eq rest (add s e), add_validate_eq]

/-- The element just added never survives the dedup filter. -/
theorem not_mem_filter_self {T : Type} [DecidableEq T] (e : T) (l : List T) :
    e ∉ l.filter (fun x => decide (x ≠ e)) := by
  intro hmem
  have := (List.mem_filter.1 hmem).2
  simp at this

/-- One `add` preserves the capacity bound and the no-duplicates
invariant, as long as the configured capacity is positive. -/
theorem add_preserves_inv {T : Type} [DecidableEq T] (s : HistoryState T)
    (e : T) (hpos : 0 < s.maxSize) (hlen : s.entries.length ≤ s.maxSize)
    (hnd : s.entries.Nodup) :
    (add s e).entries.length ≤ s.maxSize ∧ (add s e).entries.Nodup := by
  by_cases hv : s.validate e = true
  · rw [add_entries_eq s e hv]
    have hfle : (s.entries.filter (fun x => decide (x ≠ e))).length ≤
        s.entries.length := List.length_filter_le _ _
    have hfnd : (s.entries.filter (fun x => decide (x ≠ e))).Nodup :=
      hnd.filter _
    have hfe : e ∉ s.entries.filter (fun x => decide (x ≠ e)) :=
      not_mem_filter_self e s.entries
    by_cases hc : s.maxSize ≤ (s.entries.filter (fun x => decide (x ≠ e))).length
    · rw [if_pos hc]
      constructor
      · simp only [List.length_append, List.length_drop, List.length_cons,
          List.length_nil]
        omega
      · refine List.Nodup.append (hfnd.sublist (List.drop_sublist 1 _))
          (List.nodup_singleton e) ?_
        intro a ha hb
        rw [List.mem_singleton] at hb
        subst hb
        exact hfe (List.mem_of_mem_drop ha)
    · rw [if_neg hc]
      constructor
      · simp only [List.length_append, List.length_cons, List.length_nil]
        omega
      · refine List.Nodup.append hfnd (List.nodup_singleton e) ?_
        intro a ha hb
        rw [List.mem_singleton] at hb
        subst hb
        exact hfe ha
  · have hv' : s.validate e = false := eq_false_of_ne_true hv
    rw [add_of_validate_false s e hv']
    exact ⟨hlen, hnd⟩

/-- The capacity bound and no-duplicates invariant hold after any
sequence of `add` calls, by induction along the sequence. -/
theorem foldl_add_preserves_inv {T : Type} [DecidableEq T] :
    ∀ (l : List T) (s : HistoryState T), 0 < s.maxSize →
      s.entries.length ≤ s.maxSize → s.entries.Nodup →
      (l.foldl add s).entries.length ≤ s.maxSize ∧
      (l.foldl add s).entries.Nodup
  | [], _, _, h2, h3 => ⟨h2, h3⟩
  | e :: rest, s, h1, h2, h3 => by
    show (rest.foldl add (add s e)).entries.length ≤ s.maxSize ∧
      (rest.foldl add (add s e)).entries.Nodup
    have hstep := add_preserves_inv s e h1 h2 h3
    have hms := add_maxSize s e
    have := foldl_add_preserves_inv rest (add s e)
      (by rw [hms]; exact h1) (by rw [hms]; exact hstep.1) hstep.2
    rw [hms] at this
    exact this

/-- FIFO shape of a fresh buffer after adding a duplicate-free sequence of
valid entries: the surviving entries are exactly the most recent
`maxSize` ones, in insertion order (all of them while below capacity). -/
theorem foldl_add_fresh_entries {T : Type} [DecidableEq T]
    (s : HistoryState T) (hempty : s.entries = []) (hpos : 0 < s.maxSize)
    (l : List T) (hnd : l.Nodup) (hval : ∀ x ∈ l, s.validate x = true) :
    (l.foldl add s).entries = l.drop (l.length - s.maxSize) := by
  induction l using List.reverseRecOn with
  | nil => simp [hempty]
  | append_singleton l e ih =>
    have hsplit := List.nodup_append.1 hnd
    have hnotmem : e ∉ l := by
      intro hmem
      exact hsplit.2.2 hmem (List.mem_singleton.2 rfl)
    have hent : (l.foldl add s).entries = l.drop (l.length - s.maxSize) :=
      ih hsplit.1 (fun x hx => hval x (by simp [hx]))
    have hvstep : (l.foldl add s).validate e = true := by
      rw [foldl_add_validate_eq]
      exact hval e (by simp)
    rw [List.foldl_append, List.foldl_cons, List.foldl_nil,
        add_entries_eq _ e hvstep, foldl_add_maxSize, hent]
    have hfilter : (l.drop (l.length - s.maxSize)).filter
        (fun x => decide (x ≠ e)) = l.drop (l.length - s.maxSize) := by
      refine List.filter_eq_self.2 (fun a ha => ?_)
      have : a ∈ l := List.mem_of_mem_drop ha
      simp only [decide_eq_true_eq]
      intro hae
      subst hae
      exact hnotmem this
    rw [hfilter]
    have hdlen : (l.drop (l.length - s.maxSize)).length =
        l.length - (l.length - s.maxSize) := List.length_drop _ _
    by_cases hc : s.maxSize ≤ (l.drop (l.length - s.maxSize)).length
    · rw [if_pos hc]
      have hlm : s.maxSize ≤ l.length := by omega
      have hk : l.length + 1 - s.maxSize = (l.length - s.maxSize) + 1 := by
        omega
      rw [List.drop_drop, List.length_append, List.length_cons,
          List.length_nil, hk,
          List.drop_append_of_le_length (by omega)]
    · rw [if_neg hc]
      have hlm : l.length < s.maxSize := by omega
      have hz : l.length - s.maxSize = 0 := by omega
      have hz' : l.length + 1 - s.maxSize = 0 := by omega
      rw [hz] at *
      rw [List.length_append, List.length_cons, List.length_nil, hz',
          List.drop_zero, List.drop_zero]

/-- `move.prev` reports `true` exactly when the cursor was strictly
positive. -/
theorem movePrev_ret {T : Type} (s : HistoryState T) :
    (movePrev s).2 = true ↔ 0 < s.index := by
  unfold movePrev
  split
  · rename_i h
    simp
    omega
  · rename_i h
    simp
    omega

/-- `move.prev` decrements the cursor exactly when it reports `true`. -/
theorem movePrev_index {T : Type} (s : HistoryState T) :
    ((movePrev s).2 = true → (movePrev s).1.index = s.index - 1) ∧
    ((movePrev s).2 = false → (movePrev s).1.index = s.index) := by
  unfold movePrev
  split <;> simp

/-- `move.next` reports `true` exactly when the cursor was not already
past-last. -/
theorem moveNext_ret {T : Type} (s : HistoryState T) :
    (moveNext s).2 = true ↔ s.index ≠ (s.entries.length : Int) := by
  unfold moveNext
  split <;> simp_all

/-- `move.next` increments the cursor exactly when it reports `true`. -/
theorem moveNext_index {T : Type} (s : HistoryState T) :
    ((moveNext s).2 = true → (moveNext s).1.index = s.index + 1) ∧
    ((moveNext s).2 = false → (moveNext s).1.index = s.index) := by
  unfold moveNext
  split <;> simp

/-- `move.first` reports non-emptiness and lands on index `0` (or the
`-1` sentinel when empty). -/
theorem moveFirst_spec {T : Type} (s : HistoryState T) :
    ((moveFirst s).2 = true ↔ 0 < s.entries.length) ∧
    (0 < s.entries.length → (moveFirst s).1.index = 0) ∧
    (s.entries.length = 0 → (moveFirst s).1.index = -1) := by
  unfold moveFirst
  split <;> rename_i h
  · exact ⟨⟨fun hf => by simp at hf, fun hl => by omega⟩,
      fun h' => by omega, fun _ => rfl⟩
  · exact ⟨⟨fun _ => by omega, fun _ => rfl⟩, fun _ => rfl,
      fun h' => absurd h' h⟩

/-- `move.last` reports non-emptiness and lands on the last index (or the
`-1` sentinel when empty). -/
theorem moveLast_spec {T : Type} (s : HistoryState T) :
    ((moveLast s).2 = true ↔ 0 < s.entries.length) ∧
    (0 < s.entries.length →
      (moveLast s).1.index = (s.entries.length : Int) - 1) ∧
    (s.entries.length = 0 → (moveLast s).1.index = -1) := by
  unfold moveLast
  split <;> rename_i h
  · exact ⟨⟨fun hf => by simp at hf, fun hl => by omega⟩,
      fun h' => by omega, fun _ => rfl⟩
  · exact ⟨⟨fun _ => by omega, fun _ => rfl⟩, fun _ => rfl,
      fun h' => absurd h' h⟩

/-- `move.pastLast` reports non-emptiness and lands past the end (or on
`-1` when empty). -/
theorem movePastLast_spec {T : Type} (s : HistoryState T) :
    ((movePastLast s).2 = true ↔ 0 < s.entries.length) ∧
    (0 < s.entries.length →
      (movePastLast s).1.index = (s.entries.length : Int)) ∧
    (s.entries.length = 0 → (movePastLast s).1.index = -1) := by
  unfold movePastLast
  split <;> rename_i h
  · exact ⟨⟨fun hf => by simp at hf, fun hl => by omega⟩,
      fun h' => by omega, fun _ => rfl⟩
  · exact ⟨⟨fun _ => by omega, fun _ => rfl⟩, fun _ => rfl,
      fun h' => absurd h' h⟩

/-- `move.prev` never changes the entry list. -/
theorem movePrev_entries {T : Type} (s : HistoryState T) :
    (movePrev s).1.entries = s.entries := by
  unfold movePrev
  split <;> rfl

/-- `move.next` never changes the entry list. -/
theorem moveNext_entries {T : Type} (s : HistoryState T) :
    (moveNext s).1.entries = s.entries := by
  unfold moveNext
  split <;> rfl

/-- `move.first` never changes the entry list. -/
theorem moveFirst_entries {T : Type} (s : HistoryState T) :
    (moveFirst s).1.entries = s.entries := by
  unfold moveFirst
  split <;> rfl

/-- `move.last` never changes the entry list. -/
theorem moveLast_entries {T : Type} (s : HistoryState T) :
    (moveLast s).1.entries = s.entries := by
  unfold moveLast
  split <;> rfl

/-- The cursor range invariant `-1 ≤ cursor ≤ entries.length`. -/
def cursorInv {T : Type} (s : HistoryState T) : Prop :=
  -1 ≤ s.index ∧ s.index ≤ (s.entries.length : Int)

/-- Every single public call preserves the cursor range invariant. -/
theorem step_preserves_cursorInv {T : Type} [DecidableEq T]
    (s : HistoryState T) (op : HistOp T) (h : cursorInv s) :
    cursorInv (step s op) := by
  obtain ⟨h1, h2⟩ := h
  cases op with
  | add e =>
    show cursorInv (add s e)
    have := add_index_eq s e
    constructor
    · rw [this]
      omega
    · rw [this]
  | reconfigure o =>
    show cursorInv (match setOptions o s with
      | .ok s' => s'
      | .error _ => s)
    cases hso : setOptions o s with
    | ok s' =>
      obtain ⟨he, hi⟩ := setOptions_ok_fields o s s' hso
      exact ⟨by rw [hi]; exact h1, by rw [hi, he]; exact h2⟩
    | error msg => exact ⟨h1, h2⟩
  | prev =>
    show cursorInv (movePrev s).1
    unfold movePrev
    split
    · exact ⟨h1, h2⟩
    · exact ⟨by show (-1 : Int) ≤ s.index - 1; omega,
        by show s.index - 1 ≤ (s.entries.length : Int); omega⟩
  | next =>
    show cursorInv (moveNext s).1
    unfold moveNext
    split
    · exact ⟨h1, h2⟩
    · exact ⟨by show (-1 : Int) ≤ s.index + 1; omega,
        by show s.index + 1 ≤ (s.entries.length : Int); omega⟩
  | first =>
    show cursorInv (moveFirst s).1
    unfold moveFirst
    split
    · exact ⟨by show (-1 : Int) ≤ -1; omega,
        by show (-1 : Int) ≤ (s.entries.length : Int); omega⟩
    · exact ⟨by show (-1 : Int) ≤ 0; omega,
        by show (0 : Int) ≤ (s.entries.length : Int); omega⟩
  | last =>
    show cursorInv (moveLast s).1
    unfold moveLast
    split
    · exact ⟨by show (-1 : Int) ≤ -1; omega,
        by show (-1 : Int) ≤ (s.entries.length : Int); omega⟩
    · exact ⟨by show (-1 : Int) ≤ (s.entries.length : Int) - 1; omega,
        by show (s.entries.length : Int) - 1 ≤ (s.entries.length : Int)
           omega⟩
  | pastLast =>
    show cursorInv (movePastLast s).1
    unfold movePastLast
    split
    · exact ⟨by show (-1 : Int) ≤ -1; omega,
        by show (-1 : Int) ≤ (s.entries.length : Int); omega⟩
    · exact ⟨by show (-1 : Int) ≤ (s.entries.length : Int); omega,
        by show (s.entries.length : Int) ≤ (s.entries.length : Int)
           omega⟩
  | readCurrent => exact ⟨h1, h2⟩
  | readLength => exact ⟨h1, h2⟩

/-- The cursor range invariant is preserved by whole call sequences. -/
theorem run_preserves_cursorInv {T : Type} [DecidableEq T] :
    ∀ (ops : List (HistOp T)) (s : HistoryState T), cursorInv s →
      cursorInv (run s ops)
  | [], _, h => h
  | op :: rest, s, h =>
    run_preserves_cursorInv rest (step s op) (step_preserves_cursorInv s op h)

/-- C1: for every configuration with positive `maxSize` and every sequence
of `add` calls on a freshly created buffer, the entry sequence always
satisfies `0 ≤ entries.length ≤ maxSize` and never contains two equal
elements. -/
theorem claim_C1 {T : Type} [DecidableEq T]
    (options : Option (HistoryOptions T)) (s₀ : HistoryState T)
    (hok : createHistory options = .ok s₀) (hpos : 0 < s₀.maxSize)
    (adds : List T) :
    0 ≤ (adds.foldl add s₀).entries.length ∧
    (adds.foldl add s₀).entries.length ≤ s₀.maxSize ∧
    (adds.foldl add s₀).entries.Nodup := by
  have hempty : s₀.entries = [] :=
    (setOptions_ok_fields options (initialState T) s₀ hok).1
  have hinv := foldl_add_preserves_inv adds s₀ hpos
    (by rw [hempty]; exact Nat.zero_le _)
    (by rw [hempty]; exact List.nodup_nil)
  exact ⟨Nat.zero_le _, hinv.1, hinv.2⟩

/-- Concrete instance of C1: capacity 2, adds `[1, 1, 2, 3]`. -/
theorem claim_C1_witness :
    createHistory (T := Nat) (some ⟨some 2, none, none⟩) =
      .ok ⟨2, none, fun _ => true, -1, []⟩ ∧
    0 < (2 : Nat) ∧
    0 ≤ (([1, 1, 2, 3].foldl add
      (⟨2, none, fun _ => true, -1, []⟩ : HistoryState Nat)).entries.length) ∧
    (([1, 1, 2, 3].foldl add
      (⟨2, none, fun _ => true, -1, []⟩ : HistoryState Nat)).entries.length) ≤ 2 ∧
    (([1, 1, 2, 3].foldl add
      (⟨2, none, fun _ => true, -1, []⟩ : HistoryState Nat)).entries).Nodup :=
  ⟨rfl, by decide,
    claim_C1 (some ⟨some 2, none, none⟩) ⟨2, none, fun _ => true, -1, []⟩
      rfl (by decide) [1, 1, 2, 3]⟩

/-- C2: for every positive `maxSize` and every `N > maxSize`, adding `N`
pairwise-distinct valid entries to a fresh buffer leaves exactly `maxSize`
entries, namely the `maxSize` most recently added ones in insertion
order, with the oldest evicted first. -/
theorem claim_C2 {T : Type} [DecidableEq T]
    (options : Option (HistoryOptions T)) (s₀ : HistoryState T)
    (hok : createHistory options = .ok s₀) (hpos : 0 < s₀.maxSize)
    (l : List T) (hnd : l.Nodup) (hval : ∀ x ∈ l, s₀.validate x = true)
    (hN : s₀.maxSize < l.length) :
    (l.foldl add s₀).entries = l.drop (l.length - s₀.maxSize) ∧
    (l.foldl add s₀).entries.length = s₀.maxSize := by
  have hempty : s₀.entries = [] :=
    (setOptions_ok_fields options (initialState T) s₀ hok).1
  have h := foldl_add_fresh_entries s₀ hempty hpos l hnd hval
  refine ⟨h, ?_⟩
  rw [h, List.length_drop]
  omega

/-- Concrete instance of C2: capacity 2, three distinct adds keep the last
two in order. -/
theorem claim_C2_witness :
    ((([1, 2, 3] : List Nat).foldl add
      (⟨2, none, fun _ => true, -1, []⟩ : HistoryState Nat)).entries =
        [2, 3]) ∧
    ((([1, 2, 3] : List Nat).foldl add
      (⟨2, none, fun _ => true, -1, []⟩ : HistoryState Nat)).entries.length =
        2) :=
  claim_C2 (some ⟨some 2, none, none⟩) ⟨2, none, fun _ => true, -1, []⟩
    rfl (by decide) [1, 2, 3] (by decide) (fun _ _ => rfl) (by decide)

/-- Computation of the spec example `add(a); add(b); add(b); add(a)` on a
fresh buffer of capacity at least two: the duplicate insertions move
entries instead of growing the list, leaving exactly two entries. -/
theorem add_abba_length {T : Type} [DecidableEq T] (c : Nat) (a b : T)
    (hc : 2 ≤ c) (hab : a ≠ b) (s0 : HistoryState T) (hms : s0.maxSize = c)
    (hvl : s0.validate = fun _ => true) (hen : s0.entries = []) :
    ([a, b, b, a].foldl add s0).entries = [b, a] := by
  simp only [List.foldl_cons, List.foldl_nil]
  have hv1 : s0.validate a = true := by rw [hvl]
  have h1 : (add s0 a).entries = [a] := by
    rw [add_entries_eq s0 a hv1, hen, hms]
    rw [if_neg (by intro hle; simp at hle; omega)]
    simp
  have hm1 : (add s0 a).maxSize = c := by rw [add_maxSize, hms]
  have hvv1 : (add s0 a).validate = fun _ => true := by
    rw [add_validate_eq, hvl]
  have h2 : (add (add s0 a) b).entries = [a, b] := by
    rw [add_entries_eq _ b (by rw [hvv1]), h1, hm1]
    have hfab : ([a].filter (fun x => decide (x ≠ b))) = [a] := by
      simp [hab]
    rw [hfab, if_neg (by intro hle; simp at hle; omega)]
    rfl
  have hm2 : (add (add s0 a) b).maxSize = c := by rw [add_maxSize, hm1]
  have hvv2 : (add (add s0 a) b).validate = fun _ => true := by
    rw [add_validate_eq, hvv1]
  have h3 : (add (add (add s0 a) b) b).entries = [a, b] := by
    rw [add_entries_eq _ b (by rw [hvv2]), h2, hm2]
    have hfb : ([a, b].filter (fun x => decide (x ≠ b))) = [a] := by
      simp [hab]
    rw [hfb, if_neg (by intro hle; simp at hle; omega)]
    simp
  have hm3 : (add (add (add s0 a) b) b).maxSize = c := by
    rw [add_maxSize, hm2]
  have hvv3 : (add (add (add s0 a) b) b).validate = fun _ => true := by
    rw [add_validate_eq, hvv2]
  rw [add_entries_eq _ a (by rw [hvv3]), h3, hm3]
  have hfa : ([a, b].filter (fun x => decide (x ≠ a))) = [b] := by
    simp [hab, Ne.symm hab]
  rw [hfa, if_neg (by intro hle; simp at hle; omega)]
  rfl

/-- C3: below capacity, adding a valid entry already present removes that
occurrence, preserves the relative order of the others, appends the entry
at the end, and does not increase the length; in particular the spec's
`add(a); add(b); add(b); add(a)` example on a fresh buffer of capacity at
least two yields length 2. -/
theorem claim_C3 {T : Type} [DecidableEq T] (s : HistoryState T) (e : T)
    (hv : s.validate e = true) (hmem : e ∈ s.entries)
    (hcap : s.entries.length < s.maxSize) :
    (add s e).entries = s.entries.filter (fun x => decide (x ≠ e)) ++ [e] ∧
    (add s e).entries.length ≤ s.entries.length ∧
    (∀ (c : Nat) (a b : T), 2 ≤ c → a ≠ b →
      createHistory (some ⟨some c, none, none⟩) =
        .ok (⟨c, none, fun _ => true, -1, []⟩ : HistoryState T) ∧
      ([a, b, b, a].foldl add
        (⟨c, none, fun _ => true, -1, []⟩ :
          HistoryState T)).entries.length = 2) := by
  have hflt : (s.entries.filter (fun x => decide (x ≠ e))).length <
      s.entries.length :=
    List.length_filter_lt_length_iff_exists.2 ⟨e, hmem, by simp⟩
  have hmain : (add s e).entries =
      s.entries.filter (fun x => decide (x ≠ e)) ++ [e] := by
    rw [add_entries_eq s e hv, if_neg (by omega)]
  refine ⟨hmain, ?_, ?_⟩
  · rw [hmain, List.length_append]
    simp only [List.length_cons, List.length_nil]
    omega
  · intro c a b hc hab
    refine ⟨rfl, ?_⟩
    rw [add_abba_length c a b hc hab _ rfl rfl rfl]
    rfl

/-- Concrete instance of C3: re-adding `7` to the two-entry buffer
`[7, 8]` of capacity 3 moves it to the most-recent position. -/
theorem claim_C3_witness :
    (add (⟨3, none, fun _ => true, 2, [7, 8]⟩ : HistoryState Nat) 7).entries =
      [8, 7] :=
  (claim_C3 ⟨3, none, fun _ => true, 2, [7, 8]⟩ 7 rfl (by decide)
    (by decide)).1

/-- C4: with the cursor anywhere in `[-1, entries.length]`, `prev`/`next`
report whether the cursor actually moved (stepping by one exactly then),
while `first`/`last`/`pastLast` report non-emptiness and land on `0`,
`length - 1`, `length` respectively (or the `-1` sentinel on an empty
buffer); none of the five operations modifies `entries`. -/
theorem claim_C4 {T : Type} (s : HistoryState T)
    (_h1 : -1 ≤ s.index) (_h2 : s.index ≤ (s.entries.length : Int)) :
    ((movePrev s).2 = true ↔ 0 < s.index) ∧
    ((movePrev s).2 = true → (movePrev s).1.index = s.index - 1) ∧
    ((movePrev s).2 = false → (movePrev s).1.index = s.index) ∧
    ((moveNext s).2 = true ↔ s.index ≠ (s.entries.length : Int)) ∧
    ((moveNext s).2 = true → (moveNext s).1.index = s.index + 1) ∧
    ((moveNext s).2 = false → (moveNext s).1.index = s.index) ∧
    ((moveFirst s).2 = true ↔ 0 < s.entries.length) ∧
    (0 < s.entries.length → (moveFirst s).1.index = 0) ∧
    (s.entries.length = 0 → (moveFirst s).1.index = -1) ∧
    ((moveLast s).2 = true ↔ 0 < s.entries.length) ∧
    (0 < s.entries.length →
      (moveLast s).1.index = (s.entries.length : Int) - 1) ∧
    (s.entries.length = 0 → (moveLast s).1.index = -1) ∧
    ((movePastLast s).2 = true ↔ 0 < s.entries.length) ∧
    (0 < s.entries.length →
      (movePastLast s).1.index = (s.entries.length : Int)) ∧
    (s.entries.length = 0 → (movePastLast s).1.index = -1) ∧
    (movePrev s).1.entries = s.entries ∧
    (moveNext s).1.entries = s.entries ∧
    (moveFirst s).1.entries = s.entries ∧
    (moveLast s).1.entries = s.entries ∧
    (movePastLast s).1.entries = s.entries :=
  ⟨movePrev_ret s, (movePrev_index s).1, (movePrev_index s).2,
    moveNext_ret s, (moveNext_index s).1, (moveNext_index s).2,
    (moveFirst_spec s).1, (moveFirst_spec s).2.1, (moveFirst_spec s).2.2,
    (moveLast_spec s).1, (moveLast_spec s).2.1, (moveLast_spec s).2.2,
    (movePastLast_spec s).1, (movePastLast_spec s).2.1,
    (movePastLast_spec s).2.2,
    movePrev_entries s, moveNext_entries s, moveFirst_entries s,
    moveLast_entries s, movePastLast_entries s⟩

/-- Concrete instance of C4: a two-entry buffer with the cursor at `1`
satisfies the range hypothesis, and `prev` reports a real move there. -/
theorem claim_C4_witness :
    (-1 ≤ (⟨2, none, fun _ => true, 1, [10, 20]⟩ : HistoryState Nat).index ∧
      (⟨2, none, fun _ => true, 1, [10, 20]⟩ : HistoryState Nat).index ≤
        (((⟨2, none, fun _ => true, 1, [10, 20]⟩ :
          HistoryState Nat).entries.length : Int))) ∧
    ((movePrev (⟨2, none, fun _ => true, 1, [10, 20]⟩ :
      HistoryState Nat)).2 = true ↔
      0 < (⟨2, none, fun _ => true, 1, [10, 20]⟩ :
        HistoryState Nat).index) :=
  ⟨⟨by decide, by decide⟩,
    (claim_C4 ⟨2, none, fun _ => true, 1, [10, 20]⟩
      (by decide) (by decide)).1⟩

/-- C5: immediately after `add(e)` the cursor equals `entries.length`, so
`current()` returns the default value; and a failed validation leaves the
entries completely unchanged. -/
theorem claim_C5 {T : Type} [DecidableEq T] (s : HistoryState T) (e : T) :
    (add s e).index = ((add s e).entries.length : Int) ∧
    current (add s e) = s.defaultValue ∧
    (s.validate e = false → (add s e).entries = s.entries) := by
  have hidx := add_index_eq s e
  refine ⟨hidx, ?_, ?_⟩
  · unfold current
    rw [if_neg, add_defaultValue]
    intro hcond
    rw [hidx] at hcond
    omega
  · intro hval
    rw [add_of_validate_false s e hval]

/-- Concrete instance of C5: adding `5` to a one-entry buffer whose
validator rejects everything moves the cursor past the end, keeps the
entries, and `current()` falls back to the default. -/
theorem claim_C5_witness :
    (add (⟨3, some 9, fun _ => false, 0, [4]⟩ : HistoryState Nat) 5).index =
      (((add (⟨3, some 9, fun _ => false, 0, [4]⟩ :
        HistoryState Nat) 5).entries.length : Int)) ∧
    current (add (⟨3, some 9, fun _ => false, 0, [4]⟩ :
      HistoryState Nat) 5) = some 9 ∧
    ((⟨3, some 9, fun _ => false, 0, [4]⟩ :
        HistoryState Nat).validate 5 = false →
      (add (⟨3, some 9, fun _ => false, 0, [4]⟩ :
        HistoryState Nat) 5).entries = [4]) :=
  claim_C5 ⟨3, some 9, fun _ => false, 0, [4]⟩ 5

/-- C6, evaluation of the code at the failing input: `maxSize = 0` is
accepted without error, but the buffer is not permanently empty — the
unconditional `push` after a single `shift` leaves one entry after every
valid `add`, so `length()` is `1`, not `0`. -/
theorem claim_C6 :
    (createHistory (T := Nat) (some ⟨some 0, none, none⟩)).isOk = true ∧
    (createHistory (T := Nat) (some ⟨some 0, none, none⟩)).toOption.map
      (fun s => History.length (add s 7)) = some 1 ∧
    (createHistory (T := Nat) (some ⟨some 0, none, none⟩)).toOption.map
      (fun s => History.length (add (add s 7) 8)) = some 1 :=
  ⟨rfl, by decide, by decide⟩

/-- Counterexample to C7 as stated: capacity 3, three distinct adds, then
reconfigure down to `maxSize = 1` (which succeeds), then one more valid
add. The add evicts only one entry and pushes one, so the length stays 3,
far above the new `maxSize` of 1. -/
theorem claim_C7_counterexample :
    createHistory (T := Nat) (some ⟨some 3, none, none⟩) =
      .ok ⟨3, none, fun _ => true, -1, []⟩ ∧
    (setOptions (some ⟨some 1, none, none⟩)
      ([1, 2, 3].foldl add
        (⟨3, none, fun _ => true, -1, []⟩ : HistoryState Nat))).isOk =
      true ∧
    (run (⟨3, none, fun _ => true, -1, []⟩ : HistoryState Nat)
      [.add 1, .add 2, .add 3, .reconfigure (some ⟨some 1, none, none⟩),
        .add 4]).maxSize = 1 ∧
    (run (⟨3, none, fun _ => true, -1, []⟩ : HistoryState Nat)
      [.add 1, .add 2, .add 3, .reconfigure (some ⟨some 1, none, none⟩),
        .add 4]).entries = [2, 3, 4] ∧
    ¬ (History.length
        (run (⟨3, none, fun _ => true, -1, []⟩ : HistoryState Nat)
          [.add 1, .add 2, .add 3,
            .reconfigure (some ⟨some 1, none, none⟩), .add 4]) ≤
      (run (⟨3, none, fun _ => true, -1, []⟩ : HistoryState Nat)
        [.add 1, .add 2, .add 3, .reconfigure (some ⟨some 1, none, none⟩),
          .add 4]).maxSize) :=
  ⟨rfl, rfl, by decide, by decide, by decide⟩

/-- C7, amended: a successful reconfigure leaves `entries` and `cursor`
unchanged; and after a reconfigure that lowers `maxSize` below the
current `entries.length`, an add of a valid entry never increases
`entries.length` (it may stay above the new `maxSize`, shrinking by at
most one per duplicate add). -/
theorem claim_C7 {T : Type} [DecidableEq T] (o : Option (HistoryOptions T))
    (s s' : HistoryState T) (e : T) (hok : setOptions o s = .ok s')
    (hv : s'.validate e = true) (hlow : s'.maxSize < s'.entries.length) :
    s'.entries = s.entries ∧ s'.index = s.index ∧
    (add s' e).entries.length ≤ s'.entries.length := by
  obtain ⟨he, hi⟩ := setOptions_ok_fields o s s' hok
  refine ⟨he, hi, ?_⟩
  rw [add_entries_eq s' e hv]
  have hfle := List.length_filter_le (fun x => decide (x ≠ e)) s'.entries
  by_cases hc : s'.maxSize ≤
      (s'.entries.filter (fun x => decide (x ≠ e))).length
  · rw [if_pos hc]
    simp only [List.length_append, List.length_drop, List.length_cons,
      List.length_nil]
    omega
  · rw [if_neg hc]
    simp only [List.length_append, List.length_cons, List.length_nil]
    omega

/-- Concrete instance of C7 (amended): shrinking capacity from 2 to 1
over the two-entry buffer `[5, 6]` keeps entries and cursor, and the next
add does not grow the list. -/
theorem claim_C7_witness :
    (⟨1, none, fun _ => true, 2, [5, 6]⟩ : HistoryState Nat).entries =
      (⟨2, none, fun _ => true, 2, [5, 6]⟩ : HistoryState Nat).entries ∧
    (⟨1, none, fun _ => true, 2, [5, 6]⟩ : HistoryState Nat).index =
      (⟨2, none, fun _ => true, 2, [5, 6]⟩ : HistoryState Nat).index ∧
    (add (⟨1, none, fun _ => true, 2, [5, 6]⟩ : HistoryState Nat)
      7).entries.length ≤
      (⟨1, none, fun _ => true, 2, [5, 6]⟩ :
        HistoryState Nat).entries.length :=
  claim_C7 (some ⟨some 1, none, none⟩) ⟨2, none, fun _ => true, 2, [5, 6]⟩
    ⟨1, none, fun _ => true, 2, [5, 6]⟩ 7 rfl rfl (by decide)

/-- C8: in every state reachable from a fresh buffer by any sequence of
public calls, the cursor lies in the closed range `[-1, entries.length]`. -/
theorem claim_C8 {T : Type} [DecidableEq T]
    (options : Option (HistoryOptions T)) (s₀ : HistoryState T)
    (hok : createHistory options = .ok s₀) (ops : List (HistOp T)) :
    -1 ≤ (run s₀ ops).index ∧
    (run s₀ ops).index ≤ ((run s₀ ops).entries.length : Int) := by
  obtain ⟨he, hi⟩ := setOptions_ok_fields options (initialState T) s₀ hok
  have hinv0 : cursorInv s₀ := by
    constructor
    · rw [hi]
      exact le_refl (-1)
    · rw [hi, he]
      show (-1 : Int) ≤ ((([] : List T).length : Int))
      simp
  exact run_preserves_cursorInv ops s₀ hinv0

/-- Concrete instance of C8: a capacity-1 buffer driven through an add and
two `prev` calls keeps its cursor in range. -/
theorem claim_C8_witness :
    -1 ≤ (run (⟨1, none, fun _ => true, -1, []⟩ : HistoryState Nat)
      [.add 5, .prev, .prev]).index ∧
    (run (⟨1, none, fun _ => true, -1, []⟩ : HistoryState Nat)
      [.add 5, .prev, .prev]).index ≤
      (((run (⟨1, none, fun _ => true, -1, []⟩ : HistoryState Nat)
        [.add 5, .prev, .prev]).entries.length : Int)) :=
  claim_C8 (some ⟨some 1, none, none⟩) ⟨1, none, fun _ => true, -1, []⟩
    rfl [.add 5, .prev, .prev]

/-- C9: `create`/`reconfigure` fail exactly when the options object is
absent or lacks `maxSize`; any options value supplying `maxSize`
succeeds, and a successful creation yields an empty buffer. (All other
operations are embedded as total functions — they have no error path at
all.) -/
theorem claim_C9 {T : Type} (o : Option (HistoryOptions T))
    (s : HistoryState T) :
    ((setOptions o s).isOk = true ↔
      (o.bind fun x => x.maxSize).isSome = true) ∧
    ((createHistory (T := T) o).isOk = true ↔
      (o.bind fun x => x.maxSize).isSome = true) ∧
    (∀ s', createHistory (T := T) o = .ok s' → History.length s' = 0) := by
  refine ⟨setOptions_isOk_iff o s, setOptions_isOk_iff o (initialState T),
    ?_⟩
  intro s' hok
  have he : s'.entries = (initialState T).entries :=
    (setOptions_ok_fields o (initialState T) s' hok).1
  unfold History.length
  rw [he]
  rfl

/-- Concrete instance of C9: present `maxSize` means success. -/
theorem claim_C9_witness :
    (setOptions (T := Nat) (some ⟨some 1, none, none⟩)
      ⟨5, none, fun _ => true, -1, []⟩).isOk = true ↔
    ((some (⟨some 1, none, none⟩ : HistoryOptions Nat)).bind
      fun x => x.maxSize).isSome = true :=
  (claim_C9 (some ⟨some 1, none, none⟩) ⟨5, none, fun _ => true, -1, []⟩).1

/-- C10: a reconfigure call that fails with the missing-`maxSize` error
leaves the whole buffer state unchanged — the throw precedes every
assignment, so `maxSize`, `defaultValue`, `validate`, `entries` and the
cursor all keep their prior values. -/
theorem claim_C10 {T : Type} [DecidableEq T]
    (o : Option (HistoryOptions T)) (s : HistoryState T)
    (herr : (setOptions o s).isOk = false) :
    step s (.reconfigure o) = s := by
  show (match setOptions o s with
    | .ok s' => s'
    | .error _ => s) = s
  cases hso : setOptions o s with
  | ok s' =>
    rw [hso] at herr
    simp [Except.isOk, Except.toBool] at herr
  | error msg => rfl

/-- Concrete instance of C10: reconfiguring with absent options throws
and changes nothing. -/
theorem claim_C10_witness :
    step (⟨1, some 3, fun _ => true, 0, [4]⟩ : HistoryState Nat)
      (.reconfigure none) =
      ⟨1, some 3, fun _ => true, 0, [4]⟩ :=
  claim_C10 none ⟨1, some 3, fun _ => true, 0, [4]⟩ rfl

end History
